import Mathlib

/-!
Verification of the LLM provider failover pool and agent turn loop of the
`free-agent` repository. The Rust sources `src/provider/pool.rs` and
`src/agent/loop_runner.rs` are embedded shallowly: network adapters and the
tool execution boundary become oracle functions, the atomic rotation cursor
becomes an explicit natural-number counter threaded through state, and each
public operation additionally returns the list of adapter invocations it made
(its attempt trace) so that ordering and counting properties can be stated.
-/

set_option maxHeartbeats 1000000

/-- Role of a chat message. Modelled from the spec: the shared message types
live in `src/provider/types.rs`, which is not part of the available sources;
shapes follow the spec data model and the uses in `pool.rs`/`loop_runner.rs`. -/
inductive Role where
  | System
  | User
  | Assistant
  | Tool
deriving DecidableEq

/-- Function name and JSON arguments of a tool call. Modelled from the spec. -/
structure FunctionCall where
  name : String
  arguments : String
deriving DecidableEq

/-- Tool call issued by the model. Modelled from the spec. -/
structure ToolCall where
  id : String
  function : FunctionCall
deriving DecidableEq

/-- Message content. Modelled from the spec: tagged union of plain text, an
assistant turn carrying tool calls, and a tool result. -/
inductive MessageContent where
  | Text (s : String)
  | AssistantWithToolCalls (text : Option String) (tool_calls : List ToolCall)
  | ToolResult (tool_call_id : String) (name : String) (content : String)
deriving DecidableEq

/-- Text view of a message content. Modelled from the spec: the `as_text`
accessor of `MessageContent` (declared in the missing `types.rs`) projects the
plain text of a content, defaulting to the empty string. -/
def MessageContent.as_text : MessageContent → String
  | .Text s => s
  | .AssistantWithToolCalls text _ => text.getD ""
  | .ToolResult _ _ _ => ""

/-- A chat message. Modelled from the spec. -/
structure Message where
  role : Role
  content : MessageContent
deriving DecidableEq

/-- Static tool definition. Modelled from the spec. -/
structure ToolDef where
  name : String
  description : String
  jsonSchema : String
deriving DecidableEq

/-- Token usage of a response. Modelled from the spec. -/
structure Usage where
  prompt_tokens : Nat
  completion_tokens : Nat
deriving DecidableEq

/-- Uniform LLM response. Modelled from the spec. -/
structure LlmResponse where
  content : Option String
  tool_calls : List ToolCall
  usage : Usage
deriving DecidableEq

/-- Provider error classification. Modelled from the spec (closed set); the
variant names follow the uses in `pool.rs` and the adapter files. -/
inductive ProviderError where
  | RateLimited
  | AuthError (detail : String)
  | ParseError (detail : String)
  | RequestError (detail : String)
  | NoKeys
deriving DecidableEq

/-- Display string of a provider error. Modelled from the spec: the `Display`
implementation lives in the missing `types.rs`; only its existence matters to
the theorems below, which never unfold it. -/
def ProviderError.display : ProviderError → String
  | .RateLimited => "rate limited"
  | .AuthError d => "auth error: " ++ d
  | .ParseError d => "parse error: " ++ d
  | .RequestError d => "request error: " ++ d
  | .NoKeys => "no API keys configured"

/-- Result of one adapter invocation. -/
abbrev ChatResult := Except ProviderError LlmResponse

/-- Behaviour of one vendor adapter: `chat(messages, tools, api_key)`.
The concrete adapters perform network I/O; they enter the embedding as
oracle functions. -/
abbrev ChatFn := List Message → List ToolDef → String → ChatResult

/-- Key pool of one provider entry: `KeyPool` from `pool.rs`. The atomic
cursor `index` is an explicit counter. -/
structure KeyPool where
  keys : List String
  index : Nat

/-- Constructor `KeyPool::new`. -/
def KeyPool.new (keys : List String) : KeyPool :=
  { keys := keys, index := 0 }

/-- Embedding of `KeyPool::next_key`: `None` on an empty pool, otherwise the
key at `index % len` while the cursor advances by one (`fetch_add` returns the
old value). -/
def KeyPool.next_key (p : KeyPool) : Option String × KeyPool :=
  if p.keys = [] then
    (none, p)
  else
    (some (p.keys.getD (p.index % p.keys.length) ""), { p with index := p.index + 1 })

/-- Iterated `next_key`: the outputs of `n` consecutive single-threaded calls
together with the final pool state. -/
def KeyPool.nextKeys (p : KeyPool) : Nat → List (Option String) × KeyPool
  | 0 => ([], p)
  | n + 1 =>
    let step := p.next_key
    let rest := step.2.nextKeys n
    (step.1 :: rest.1, rest.2)

/-- Enum-based provider dispatch from `pool.rs`: one variant per backend, each
carrying the behaviour of its adapter's `chat`. -/
inductive Provider where
  | Claude (chatFn : ChatFn)
  | Gemini (chatFn : ChatFn)
  | Groq (chatFn : ChatFn)
  | Mistral (chatFn : ChatFn)

/-- Embedding of `Provider::name`. -/
def Provider.name : Provider → String
  | .Claude _ => "claude"
  | .Gemini _ => "gemini"
  | .Groq _ => "groq"
  | .Mistral _ => "mistral"

/-- Embedding of `Provider::chat`: a single match dispatch. -/
def Provider.chat (p : Provider) (messages : List Message) (tools : List ToolDef)
    (api_key : String) : ChatResult :=
  match p with
  | .Claude f => f messages tools api_key
  | .Gemini f => f messages tools api_key
  | .Groq f => f messages tools api_key
  | .Mistral f => f messages tools api_key

/-- Embedding of `ProviderEntry`. -/
structure ProviderEntry where
  provider : Provider
  keys : KeyPool

/-- Embedding of `ProviderPool`. -/
structure ProviderPool where
  providers : List ProviderEntry
  default_idx : Nat

/-- Embedding of `ProviderPool::new`: one entry per backend with a non-empty
key list, in the fixed order claude, gemini, groq, mistral; the default index
is the position of the entry whose name equals `default_provider`, or 0 when
no entry matches. The four adapter behaviours are passed as oracles. -/
def ProviderPool.new (cf gf qf mf : ChatFn)
    (claude_keys gemini_keys groq_keys mistral_keys : List String)
    (default_provider : String) : ProviderPool :=
  let providers :=
    (if claude_keys = [] then [] else
      [{ provider := Provider.Claude cf, keys := KeyPool.new claude_keys }]) ++
    (if gemini_keys = [] then [] else
      [{ provider := Provider.Gemini gf, keys := KeyPool.new gemini_keys }]) ++
    (if groq_keys = [] then [] else
      [{ provider := Provider.Groq qf, keys := KeyPool.new groq_keys }]) ++
    (if mistral_keys = [] then [] else
      [{ provider := Provider.Mistral mf, keys := KeyPool.new mistral_keys }])
  let default_idx :=
    (providers.findIdx? (fun p => p.provider.name = default_provider)).getD 0
  { providers := providers, default_idx := default_idx }

/-- Embedding of `ProviderPool::provider_order`: the default index first, then
every other index in configured (ascending) order. -/
def ProviderPool.provider_order (pool : ProviderPool) : List Nat :=
  pool.default_idx ::
    (List.range pool.providers.length).filter (fun i => i ≠ pool.default_idx)

deriving instance DecidableEq for Except

/-- Record of one adapter invocation made by the pool: which provider, with
which key, and what the adapter answered. -/
structure Attempt where
  provider : String
  key : String
  outcome : ChatResult
deriving DecidableEq

/-- Boolean success test on an attempt outcome. -/
def ChatResult.isOk : ChatResult → Bool
  | .ok _ => true
  | .error _ => false

/-- Inner loop of `ProviderPool::chat` for one provider entry: up to `n`
attempts (`n` is the key count, fixed before the loop); each attempt draws the
next key; a success returns it, `RateLimited` moves to the next key, any other
error abandons the remaining keys (`break`). Returns the first success if any,
the updated key pool, and the attempt trace. -/
def tryProviderKeys (pr : Provider) (msgs : List Message) (tools : List ToolDef) :
    KeyPool → Nat → Option LlmResponse × KeyPool × List Attempt
  | kp, 0 => (none, kp, [])
  | kp, n + 1 =>
    match kp.next_key with
    | (none, kp1) => (none, kp1, [])
    | (some k, kp1) =>
      match pr.chat msgs tools k with
      | .ok r => (some r, kp1, [{ provider := pr.name, key := k, outcome := .ok r }])
      | .error .RateLimited =>
        let rest := tryProviderKeys pr msgs tools kp1 n
        (rest.1, rest.2.1,
          { provider := pr.name, key := k, outcome := .error .RateLimited } :: rest.2.2)
      | .error e => (none, kp1, [{ provider := pr.name, key := k, outcome := .error e }])

/-- Outer loop of `ProviderPool::chat` over the visit order, threading the
entry list (whose key cursors advance) and accumulating the attempt trace;
when no provider succeeds the terminal error of `pool.rs` is returned. -/
def chatLoop (msgs : List Message) (tools : List ToolDef) :
    List Nat → List ProviderEntry →
    Except ProviderError (LlmResponse × String) × List ProviderEntry × List Attempt
  | [], ps => (.error (.RequestError "All providers failed"), ps, [])
  | idx :: rest, ps =>
    match ps[idx]? with
    | none => chatLoop msgs tools rest ps
    | some entry =>
      let step := tryProviderKeys entry.provider msgs tools entry.keys entry.keys.keys.length
      let ps1 := ps.set idx { entry with keys := step.2.1 }
      match step.1 with
      | some r => (.ok (r, entry.provider.name), ps1, step.2.2)
      | none =>
        let next := chatLoop msgs tools rest ps1
        (next.1, next.2.1, step.2.2 ++ next.2.2)

/-- Embedding of `ProviderPool::chat`: `NoKeys` when no provider is
configured, otherwise the two-level retry over `provider_order`. Besides the
result, the updated pool and the attempt trace are returned. -/
def ProviderPool.chat (pool : ProviderPool) (msgs : List Message) (tools : List ToolDef) :
    Except ProviderError (LlmResponse × String) × ProviderPool × List Attempt :=
  if pool.providers.isEmpty then
    (.error .NoKeys, pool, [])
  else
    let step := chatLoop msgs tools pool.provider_order pool.providers
    (step.1, { pool with providers := step.2.1 }, step.2.2)

/-- Embedding of `ProviderPool::chat_with_provider`: if an entry with the
requested name exists and yields a key, that single key is tried; a success is
returned under the requested name, and any failure (or a missing entry or key)
falls back to the full `chat` rotation, keeping the cursor advance of the
failed draw. -/
def ProviderPool.chat_with_provider (pool : ProviderPool) (msgs : List Message)
    (tools : List ToolDef) (provider_name : String) :
    Except ProviderError (LlmResponse × String) × ProviderPool × List Attempt :=
  match pool.providers.findIdx? (fun p => p.provider.name = provider_name) with
  | none => pool.chat msgs tools
  | some i =>
    match pool.providers[i]? with
    | none => pool.chat msgs tools
    | some entry =>
      match entry.keys.next_key with
      | (none, _) => pool.chat msgs tools
      | (some k, kp1) =>
        match entry.provider.chat msgs tools k with
        | .ok r =>
          (.ok (r, provider_name),
            { pool with providers := pool.providers.set i { entry with keys := kp1 } },
            [{ provider := entry.provider.name, key := k, outcome := .ok r }])
        | .error e =>
          let pool1 : ProviderPool :=
            { pool with providers := pool.providers.set i { entry with keys := kp1 } }
          let next := pool1.chat msgs tools
          (next.1, next.2.1,
            { provider := entry.provider.name, key := k, outcome := .error e } :: next.2.2)

/-- Reference model of the claimed key policy for one provider, written from
the spec's words rather than the source: for up to `n` attempts the keys at
cursor, cursor+1, … are drawn in turn; a success is returned at once, a
`RateLimited` answer moves to the next key, any other error abandons the
provider. Stated over the plain key list and cursor instead of the source's
threaded `KeyPool` state. -/
def specKeyAttempts (pr : Provider) (msgs : List Message) (tools : List ToolDef)
    (keys : List String) : Nat → Nat → Option LlmResponse × List Attempt
  | _, 0 => (none, [])
  | cursor, n + 1 =>
    if keys = [] then (none, [])
    else
      let k := keys.getD (cursor % keys.length) ""
      match pr.chat msgs tools k with
      | .ok r => (some r, [{ provider := pr.name, key := k, outcome := .ok r }])
      | .error .RateLimited =>
        let rest := specKeyAttempts pr msgs tools keys (cursor + 1) n
        (rest.1, { provider := pr.name, key := k, outcome := .error .RateLimited } :: rest.2)
      | .error e => (none, [{ provider := pr.name, key := k, outcome := .error e }])

/-- Reference model of the claimed failover policy, written from the spec's
words: providers are visited in the order default-first-then-rest; within one
provider up to keyCount keys are tried under the key policy; the first
success is returned immediately with that provider's name and nothing further
is attempted. Each provider's attempts are computed from that provider's own
initial cursor (cursors of distinct providers are independent). -/
def specVisit (pool : ProviderPool) (msgs : List Message) (tools : List ToolDef) :
    List Nat → Option (LlmResponse × String) × List Attempt
  | [] => (none, [])
  | i :: rest =>
    match pool.providers[i]? with
    | none => specVisit pool msgs tools rest
    | some e =>
      let step := specKeyAttempts e.provider msgs tools e.keys.keys e.keys.index
        e.keys.keys.length
      match step.1 with
      | some r => (some (r, e.provider.name), step.2)
      | none =>
        let next := specVisit pool msgs tools rest
        (next.1, step.2 ++ next.2)

/-- Visit order named by the claim: the default provider first, then the
remaining providers in configured order. -/
def claimOrder (pool : ProviderPool) : List Nat :=
  pool.default_idx ::
    (List.range pool.providers.length).filter (fun i => i ≠ pool.default_idx)

/-- Reference model of the whole claimed `chat` policy. -/
def chatClaimSpec (pool : ProviderPool) (msgs : List Message) (tools : List ToolDef) :
    Option (LlmResponse × String) × List Attempt :=
  specVisit pool msgs tools (claimOrder pool)

/-- Result of one agent loop execution, from `loop_runner.rs`. -/
structure AgentResult where
  response : String
  tools_used : List String
  tools_count : List Nat
  provider : String
  turns : Nat
deriving DecidableEq

/-- Sorted-map insertion used to embed the `BTreeMap` of `dedup_with_counts`:
the association list is kept strictly sorted by key and the entry of `t` is
bumped by one. -/
def insertCount : List (String × Nat) → String → List (String × Nat)
  | [], t => [(t, 1)]
  | (k, c) :: rest, t =>
    if t < k then (t, 1) :: (k, c) :: rest
    else if t = k then (k, c + 1) :: rest
    else (k, c) :: insertCount rest t

/-- Embedding of `dedup_with_counts` from `loop_runner.rs`: fold the tool
names into a `BTreeMap` (here a sorted association list), then read keys and
values off in map order. -/
def dedup_with_counts (tools : List String) : List String × List Nat :=
  let m := tools.foldl insertCount []
  (m.map Prod.fst, m.map Prod.snd)

/-- Parameters of one agent run that the loop treats as opaque context: the
frozen tool catalogue, the tool execution boundary (pure oracle for
`ToolRegistry::execute`), the turn budget, the optional pinned provider, and
the value of the shared cancellation flag as observed at each turn boundary. -/
structure LoopConfig where
  toolDefs : List ToolDef
  execute : String → String → String
  maxTurns : Nat
  preferred : Option String
  cancel : Nat → Bool

/-- Model call of one turn: the pinned-provider path or the pool path, as in
`loop_runner.rs` lines 98-102. -/
def chatStep (cfg : LoopConfig) (pool : ProviderPool) (msgs : List Message) :
    Except ProviderError (LlmResponse × String) × ProviderPool × List Attempt :=
  match cfg.preferred with
  | some name => pool.chat_with_provider msgs cfg.toolDefs name
  | none => pool.chat msgs cfg.toolDefs

/-- Most recent assistant text: scan the transcript backward for an
`Assistant`-role message and take its text, or `none` when there is none. -/
def lastAssistantText? (msgs : List Message) : Option String :=
  (msgs.reverse.find? (fun m => m.role = Role.Assistant)).map
    (fun m => m.content.as_text)

/-- Tool result messages appended for one batch of tool calls, in issue
order: one `ToolResult` per call, carrying the call's id, the tool name, and
the boundary's answer. -/
def toolResults (execute : String → String → String) (tcs : List ToolCall) :
    List Message :=
  tcs.map (fun tc =>
    { role := Role.Tool,
      content := MessageContent.ToolResult tc.id tc.function.name
        (execute tc.function.name tc.function.arguments) })

/-- Assistant message recording a batch of tool calls, from `loop_runner.rs`
lines 127-133. -/
def assistantToolCallMsg (resp : LlmResponse) : Message :=
  { role := Role.Assistant,
    content := MessageContent.AssistantWithToolCalls resp.content resp.tool_calls }

/-- Observable outcome of (the rest of) one agent run: the returned result,
the final transcript, the final pool state, and how many model calls were
issued. Transcript, pool and call count are instrumentation over the source,
which keeps `messages` internal. -/
structure RunOutput where
  result : Except String AgentResult
  transcript : List Message
  pool : ProviderPool
  modelCalls : Nat

/-- Embedding of the body of `AgentLoop::run` from the start of turn `turn`:
check the cancellation flag at the turn boundary, issue the model call,
terminate on a tool-call-free response, otherwise append the assistant
message and the tool results in issue order and continue; when the turn
budget is exhausted, return the max-turns result. -/
def AgentLoop.go (cfg : LoopConfig) (pool : ProviderPool) (msgs : List Message)
    (toolsUsed : List String) (lastProvider : String) (turn : Nat) : RunOutput :=
  if turn < cfg.maxTurns then
    if cfg.cancel turn then
      let lastText := (lastAssistantText? msgs).getD ""
      { result := .ok
          { response := if lastText = "" then "Query đã bị dừng."
              else lastText ++ "\n\n_— Query đã bị dừng._",
            tools_used := (dedup_with_counts toolsUsed).1,
            tools_count := (dedup_with_counts toolsUsed).2,
            provider := lastProvider,
            turns := turn },
        transcript := msgs, pool := pool, modelCalls := 0 }
    else
      match chatStep cfg pool msgs with
      | (.error e, pool1, _) =>
        { result := .error ("LLM error: " ++ e.display),
          transcript := msgs, pool := pool1, modelCalls := 1 }
      | (.ok (resp, name), pool1, _) =>
        if resp.tool_calls.isEmpty then
          { result := .ok
              { response := resp.content.getD "",
                tools_used := (dedup_with_counts toolsUsed).1,
                tools_count := (dedup_with_counts toolsUsed).2,
                provider := name,
                turns := turn + 1 },
            transcript := msgs, pool := pool1, modelCalls := 1 }
        else
          let msgs1 := msgs ++ assistantToolCallMsg resp ::
            toolResults cfg.execute resp.tool_calls
          let used1 := toolsUsed ++ resp.tool_calls.map (fun tc => tc.function.name)
          let out := AgentLoop.go cfg pool1 msgs1 used1 name (turn + 1)
          { out with modelCalls := out.modelCalls + 1 }
  else
    { result := .ok
        { response := (lastAssistantText? msgs).getD
            "Reached max processing limit. Please try again.",
          tools_used := (dedup_with_counts toolsUsed).1,
          tools_count := (dedup_with_counts toolsUsed).2,
          provider := lastProvider,
          turns := cfg.maxTurns },
      transcript := msgs, pool := pool, modelCalls := 0 }
termination_by cfg.maxTurns - turn

/-- Embedding of `AgentLoop::run`: the transcript starts with the system
prompt, then prior history, then the new user message; the tool-usage list is
empty and the last provider name is the empty string. -/
def AgentLoop.run (cfg : LoopConfig) (pool : ProviderPool) (system_prompt : String)
    (user_content : MessageContent) (history : List Message) : RunOutput :=
  AgentLoop.go cfg pool
    ({ role := Role.System, content := MessageContent.Text system_prompt } ::
      history ++ [{ role := Role.User, content := user_content }])
    [] "" 0

/-- Shape of everything the loop ever appends to the transcript: a sequence
of completed turn blocks, each an assistant message carrying tool calls
followed immediately by exactly one matching tool result per call, in issue
order. -/
inductive ToolBlocks (execute : String → String → String) : List Message → Prop where
  | nil : ToolBlocks execute []
  | block (resp : LlmResponse) (rest : List Message) :
      ToolBlocks execute rest →
      ToolBlocks execute (assistantToolCallMsg resp ::
        (toolResults execute resp.tool_calls ++ rest))

/-- Key count visible at index `i` of an entry list (0 when out of range). -/
def lengthAt (ps : List ProviderEntry) (i : Nat) : Nat :=
  ((ps[i]?).map (fun e => e.keys.keys.length)).getD 0

/-- Total key count of a pool: the sum of `keyCount` over all entries. -/
def keyCountSum (ps : List ProviderEntry) : Nat :=
  (ps.map (fun e => e.keys.keys.length)).sum

/-- Adapter behaviour that always succeeds with a fixed response. -/
def okFn (r : LlmResponse) : ChatFn := fun _ _ _ => Except.ok r

/-- Adapter behaviour that always fails with a fixed error. -/
def errFn (e : ProviderError) : ChatFn := fun _ _ _ => Except.error e

/-- Concrete tool-call-free response used by witnesses. -/
def respHello : LlmResponse :=
  { content := some "hello", tool_calls := [],
    usage := { prompt_tokens := 1, completion_tokens := 1 } }

/-- Concrete pool with one always-succeeding claude key. -/
def poolHello : ProviderPool :=
  ProviderPool.new (okFn respHello) (okFn respHello) (okFn respHello) (okFn respHello)
    ["ck"] [] [] [] "claude"

/-- Concrete pool in which every adapter invocation fails: claude has two keys
and answers `AuthError`, gemini has one key and answers `RateLimited`. -/
def poolAllFail : ProviderPool :=
  ProviderPool.new (errFn (ProviderError.AuthError "bad")) (errFn ProviderError.RateLimited)
    (errFn ProviderError.RateLimited) (errFn ProviderError.RateLimited)
    ["ck1", "ck2"] ["gk"] [] [] "claude"

/-- Concrete pool with no keys at all. -/
def poolEmpty : ProviderPool :=
  ProviderPool.new (errFn ProviderError.NoKeys) (errFn ProviderError.NoKeys)
    (errFn ProviderError.NoKeys) (errFn ProviderError.NoKeys) [] [] [] [] "claude"

/-- Concrete pool whose claude entry fails with `AuthError` while gemini (the
default) succeeds. -/
def poolTwo : ProviderPool :=
  ProviderPool.new (errFn (ProviderError.AuthError "x")) (okFn respHello)
    (okFn respHello) (okFn respHello) ["ck"] ["gk"] [] [] "gemini"

/-- Concrete pool whose configured default-provider name matches no entry. -/
def poolNoMatch : ProviderPool :=
  ProviderPool.new (errFn ProviderError.RateLimited) (errFn ProviderError.RateLimited)
    (errFn ProviderError.RateLimited) (errFn ProviderError.RateLimited)
    ["ck"] ["gk"] [] [] "typo"

/-- Concrete loop context: no tools, budget of three turns, pool path, never
cancelled. -/
def cfgBase : LoopConfig :=
  { toolDefs := [], execute := fun n _ => "ran:" ++ n, maxTurns := 3,
    preferred := none, cancel := fun _ => false }

/-- Concrete loop context whose cancellation flag is always set. -/
def cfgCancelNow : LoopConfig :=
  { toolDefs := [], execute := fun n _ => "ran:" ++ n, maxTurns := 3,
    preferred := none, cancel := fun _ => true }

/-- Concrete initial transcript of a run with system prompt `sys`, no
history, and user text `hi`. -/
def msgsW : List Message :=
  [{ role := Role.System, content := MessageContent.Text "sys" },
   { role := Role.User, content := MessageContent.Text "hi" }]

/-! ## Key rotation (claim C2) -/

theorem KeyPool.next_key_nonempty (p : KeyPool) (h : p.keys ≠ []) :
    p.next_key = (some (p.keys.getD (p.index % p.keys.length) ""),
      { p with index := p.index + 1 }) := by
  simp [KeyPool.next_key, h]

theorem KeyPool.nextKeys_closed (p : KeyPool) (h : p.keys ≠ []) (n : Nat) :
    p.nextKeys n =
      ((List.range n).map
        (fun i => some (p.keys.getD ((p.index + i) % p.keys.length) "")),
       { keys := p.keys, index := p.index + n }) := by
  induction n generalizing p with
  | zero => simp [KeyPool.nextKeys]
  | succ n ih =>
    have hk := p.next_key_nonempty h
    have hrec := ih { keys := p.keys, index := p.index + 1 } h
    have step : p.nextKeys (n + 1)
        = (p.next_key.1 :: (p.next_key.2.nextKeys n).1, (p.next_key.2.nextKeys n).2) := rfl
    rw [step, hk]
    simp only at hrec
    rw [hrec]
    refine Prod.ext ?_ ?_
    · show _ :: _ = _
      rw [List.range_succ_eq_map, List.map_cons, List.map_map]
      congr 1
      apply List.map_congr_left
      intro i _
      have hi : p.index + 1 + i = p.index + (i + 1) := by omega
      simp [hi]
    · show ({ keys := p.keys, index := p.index + 1 + n } : KeyPool) = _
      have hi : p.index + 1 + n = p.index + (n + 1) := by omega
      rw [hi]

theorem KeyPool.nextKeys_full_cycle (p : KeyPool) (h : p.keys ≠ []) :
    (p.nextKeys p.keys.length).1 = (p.keys.rotate p.index).map some := by
  have hpos : 0 < p.keys.length := List.length_pos.mpr h
  rw [p.nextKeys_closed h]
  apply List.ext_getElem
  · simp
  · intro i h1 h2
    simp only [List.getElem_map, List.getElem_range]
    rw [List.getElem_rotate]
    rw [List.getD_eq_getElem _ _ (Nat.mod_lt _ hpos)]
    rw [Nat.add_comm i p.index]

/-- Claim C2: `next_key` returns `None` exactly on the empty pool and never
mutates the key list; on a non-empty pool it returns the key at
`cursor mod poolSize` and advances the cursor by one, `N` consecutive calls
return the keys in a fixed cyclic order (a rotation of the key list, hence
every key exactly once), and the `(N+1)`-th call repeats the first. -/
theorem next_key_round_robin (p : KeyPool) :
    ((p.next_key).1 = none ↔ p.keys = []) ∧
    (p.next_key).2.keys = p.keys ∧
    (p.keys ≠ [] →
      (p.next_key).1 = some (p.keys.getD (p.index % p.keys.length) "") ∧
      (p.next_key).2.index = p.index + 1 ∧
      (p.nextKeys p.keys.length).1 = (p.keys.rotate p.index).map some ∧
      List.Perm (p.nextKeys p.keys.length).1 (p.keys.map some) ∧
      ((p.nextKeys p.keys.length).2.next_key).1 = (p.next_key).1) := by
  by_cases h : p.keys = []
  · refine ⟨by simp [KeyPool.next_key, h], by simp [KeyPool.next_key, h], fun hc => absurd h hc⟩
  · have hk := p.next_key_nonempty h
    have hcycle := p.nextKeys_full_cycle h
    refine ⟨by simp [hk, h], by simp [hk], fun _ => ⟨by simp [hk], by simp [hk], hcycle, ?_, ?_⟩⟩
    · rw [hcycle]
      exact (p.keys.rotate_perm p.index).map some
    · rw [p.nextKeys_closed h]
      simp only [hk]
      have h2 : ({ keys := p.keys, index := p.index + p.keys.length } : KeyPool).keys ≠ [] := h
      rw [KeyPool.next_key_nonempty _ h2]
      simp only [Option.some.injEq]
      congr 1
      exact Nat.add_mod_right p.index p.keys.length

/-- Witness for C2 at a concrete pool of three keys with cursor 4. -/
theorem next_key_round_robin_witness :
    (KeyPool.mk ["a", "b", "c"] 4).next_key.1 = some "b" ∧
    ((KeyPool.mk ["a", "b", "c"] 4).nextKeys 3).1 = [some "b", some "c", some "a"] := by
  have h := next_key_round_robin (KeyPool.mk ["a", "b", "c"] 4)
  have h3 := h.2.2 (by decide)
  refine ⟨by rw [h3.1]; rfl, ?_⟩
  exact h3.2.2.1

/-! ## Failover policy of `chat` (claim C1) -/

theorem tryProviderKeys_spec (pr : Provider) (msgs : List Message) (tools : List ToolDef) :
    ∀ (n : Nat) (kp : KeyPool),
      (tryProviderKeys pr msgs tools kp n).1 =
        (specKeyAttempts pr msgs tools kp.keys kp.index n).1 ∧
      (tryProviderKeys pr msgs tools kp n).2.2 =
        (specKeyAttempts pr msgs tools kp.keys kp.index n).2 ∧
      (tryProviderKeys pr msgs tools kp n).2.1.keys = kp.keys := by
  intro n
  induction n with
  | zero => intro kp; simp [tryProviderKeys, specKeyAttempts]
  | succ n ih =>
    intro kp
    by_cases h : kp.keys = []
    · simp [tryProviderKeys, specKeyAttempts, KeyPool.next_key, h]
    · have hk := kp.next_key_nonempty h
      cases hout : pr.chat msgs tools (kp.keys[kp.index % kp.keys.length]?.getD "") with
      | ok r => simp [tryProviderKeys, specKeyAttempts, hk, h, hout]
      | error e =>
        obtain ⟨ih1, ih2, ih3⟩ := ih { keys := kp.keys, index := kp.index + 1 }
        cases e <;>
          simp [tryProviderKeys, specKeyAttempts, hk, h, hout, ih1, ih2, ih3]

theorem chatLoop_spec (pool : ProviderPool) (msgs : List Message) (tools : List ToolDef) :
    ∀ (order : List Nat) (ps : List ProviderEntry),
      (∀ i ∈ order, ps[i]? = pool.providers[i]?) → order.Nodup →
      (chatLoop msgs tools order ps).1.toOption = (specVisit pool msgs tools order).1 ∧
      (chatLoop msgs tools order ps).2.2 = (specVisit pool msgs tools order).2 := by
  intro order
  induction order with
  | nil => intro ps _ _; simp [chatLoop, specVisit, Except.toOption]
  | cons idx rest ih =>
    intro ps hagree hnodup
    have hidx := hagree idx (List.mem_cons_self _ _)
    have hnotin : idx ∉ rest := (List.nodup_cons.mp hnodup).1
    have hndrest : rest.Nodup := (List.nodup_cons.mp hnodup).2
    cases hip : pool.providers[idx]? with
    | none =>
      have hps : ps[idx]? = none := by rw [hidx, hip]
      have hrec := ih ps (fun i hi => hagree i (List.mem_cons_of_mem _ hi)) hndrest
      simp [chatLoop, specVisit, hps, hip, hrec.1, hrec.2]
    | some entry =>
      have hps : ps[idx]? = some entry := by rw [hidx, hip]
      obtain ⟨t1, t2, t3⟩ :=
        tryProviderKeys_spec entry.provider msgs tools entry.keys.keys.length entry.keys
      cases hres :
          (tryProviderKeys entry.provider msgs tools entry.keys entry.keys.keys.length).1 with
      | some r =>
        have hs := t1.symm.trans hres
        simp [chatLoop, specVisit, hps, hip, hres, hs, t2, Except.toOption]
      | none =>
        have hs := t1.symm.trans hres
        have hagree1 : ∀ i ∈ rest,
            (ps.set idx { entry with
              keys := (tryProviderKeys entry.provider msgs tools entry.keys
                entry.keys.keys.length).2.1 })[i]? = pool.providers[i]? := by
          intro i hi
          rw [List.getElem?_set_ne (fun he => hnotin (by rw [he]; exact hi))]
          exact hagree i (List.mem_cons_of_mem _ hi)
        have hrec := ih _ hagree1 hndrest
        simp [chatLoop, specVisit, hps, hip, hres, hs, t2, hrec.1, hrec.2]

theorem provider_order_nodup (pool : ProviderPool) : pool.provider_order.Nodup := by
  unfold ProviderPool.provider_order
  refine List.nodup_cons.mpr ⟨?_, List.Nodup.filter _ (List.nodup_range _)⟩
  intro hmem
  have := (List.mem_filter.mp hmem).2
  simp at this

/-- Claim C1: `chat` implements exactly the claimed failover policy. The
reference model `chatClaimSpec`, written from the claim's words, visits the
providers in the order default-then-rest-in-configured-order, tries within one
provider up to keyCount successive keys, moving to the next key of the same
provider on `RateLimited`, abandoning the provider on `AuthError` or any
other error, and returns the first successful response together with that
provider's name at once; the theorem says the source `chat` produces exactly
the same successful result (if any) and exactly the same adapter-invocation
trace, so no further keys or providers are attempted after a success. -/
theorem chat_follows_claimed_policy (pool : ProviderPool) (msgs : List Message)
    (tools : List ToolDef) :
    (pool.chat msgs tools).1.toOption = (chatClaimSpec pool msgs tools).1 ∧
    (pool.chat msgs tools).2.2 = (chatClaimSpec pool msgs tools).2 := by
  have h := chatLoop_spec pool msgs tools pool.provider_order pool.providers
    (fun _ _ => rfl) (provider_order_nodup pool)
  have horder : claimOrder pool = pool.provider_order := rfl
  by_cases hne : pool.providers.isEmpty
  · have hplist : pool.providers = [] := List.isEmpty_iff.mp hne
    unfold ProviderPool.chat chatClaimSpec
    rw [horder]
    simp only [hne, if_pos rfl]
    unfold ProviderPool.provider_order
    simp [specVisit, hplist, Except.toOption]
  · unfold ProviderPool.chat chatClaimSpec
    rw [horder]
    simp only [hne, Bool.false_eq_true, if_false]
    exact h

/-! ## Terminal error and attempt bound of `chat` (claim C3) -/

theorem tryProviderKeys_ok_mem (pr : Provider) (msgs : List Message) (tools : List ToolDef) :
    ∀ (n : Nat) (kp : KeyPool) (r : LlmResponse),
      (tryProviderKeys pr msgs tools kp n).1 = some r →
      ∃ a ∈ (tryProviderKeys pr msgs tools kp n).2.2, a.outcome = .ok r := by
  intro n
  induction n with
  | zero => intro kp r h; simp [tryProviderKeys] at h
  | succ n ih =>
    intro kp r h
    by_cases hk : kp.keys = []
    · simp [tryProviderKeys, KeyPool.next_key, hk] at h
    · have hnk := kp.next_key_nonempty hk
      cases hout : pr.chat msgs tools (kp.keys[kp.index % kp.keys.length]?.getD "") with
      | ok r2 =>
        simp [tryProviderKeys, hnk, hout] at h ⊢
        exact h
      | error e =>
        cases e with
        | RateLimited =>
          simp [tryProviderKeys, hnk, hout] at h ⊢
          obtain ⟨a, ha, hb⟩ := ih { keys := kp.keys, index := kp.index + 1 } r h
          exact ⟨a, ha, hb⟩
        | AuthError d => simp [tryProviderKeys, hnk, hout] at h
        | ParseError d => simp [tryProviderKeys, hnk, hout] at h
        | RequestError d => simp [tryProviderKeys, hnk, hout] at h
        | NoKeys => simp [tryProviderKeys, hnk, hout] at h

theorem chatLoop_all_fail (msgs : List Message) (tools : List ToolDef) :
    ∀ (order : List Nat) (ps : List ProviderEntry),
      (∀ a ∈ (chatLoop msgs tools order ps).2.2, a.outcome.isOk = false) →
      (chatLoop msgs tools order ps).1 =
        .error (.RequestError "All providers failed") := by
  intro order
  induction order with
  | nil => intro ps _; simp [chatLoop]
  | cons idx rest ih =>
    intro ps hfail
    cases hip : ps[idx]? with
    | none =>
      have := ih ps (by simpa [chatLoop, hip] using hfail)
      simpa [chatLoop, hip] using this
    | some entry =>
      cases hres :
          (tryProviderKeys entry.provider msgs tools entry.keys entry.keys.keys.length).1 with
      | some r =>
        obtain ⟨a, ha, hb⟩ := tryProviderKeys_ok_mem entry.provider msgs tools
          entry.keys.keys.length entry.keys r hres
        have : a.outcome.isOk = false := by
          apply hfail
          simp [chatLoop, hip, hres]
          exact ha
        rw [hb] at this
        simp [ChatResult.isOk] at this
      | none =>
        have hsub : ∀ a ∈ (chatLoop msgs tools rest
            (ps.set idx { entry with
              keys := (tryProviderKeys entry.provider msgs tools entry.keys
                entry.keys.keys.length).2.1 })).2.2, a.outcome.isOk = false := by
          intro a ha
          apply hfail
          simp [chatLoop, hip, hres]
          exact Or.inr ha
        have := ih _ hsub
        simpa [chatLoop, hip, hres] using this

theorem tryProviderKeys_trace_le (pr : Provider) (msgs : List Message) (tools : List ToolDef) :
    ∀ (n : Nat) (kp : KeyPool),
      (tryProviderKeys pr msgs tools kp n).2.2.length ≤ n := by
  intro n
  induction n with
  | zero => intro kp; simp [tryProviderKeys]
  | succ n ih =>
    intro kp
    by_cases hk : kp.keys = []
    · simp [tryProviderKeys, KeyPool.next_key, hk]
    · have hnk := kp.next_key_nonempty hk
      cases hout : pr.chat msgs tools (kp.keys[kp.index % kp.keys.length]?.getD "") with
      | ok r2 => simp [tryProviderKeys, hnk, hout]
      | error e =>
        cases e with
        | RateLimited =>
          have := ih { keys := kp.keys, index := kp.index + 1 }
          simp [tryProviderKeys, hnk, hout]
          omega
        | AuthError d => simp [tryProviderKeys, hnk, hout]
        | ParseError d => simp [tryProviderKeys, hnk, hout]
        | RequestError d => simp [tryProviderKeys, hnk, hout]
        | NoKeys => simp [tryProviderKeys, hnk, hout]

theorem lengthAt_set_eq (ps : List ProviderEntry) (i : Nat) (entry e2 : ProviderEntry)
    (hip : ps[i]? = some entry) (hlen : e2.keys.keys.length = entry.keys.keys.length) :
    ∀ j, lengthAt (ps.set i e2) j = lengthAt ps j := by
  intro j
  by_cases h : i = j
  · subst h
    have hlt : i < ps.length := by
      by_contra hge
      rw [List.getElem?_eq_none (by omega)] at hip
      exact Option.noConfusion hip
    rw [lengthAt, lengthAt, List.getElem?_set_self hlt, hip]
    simp [hlen]
  · rw [lengthAt, lengthAt, List.getElem?_set_ne h]

theorem chatLoop_trace_le (msgs : List Message) (tools : List ToolDef) :
    ∀ (order : List Nat) (ps : List ProviderEntry),
      (chatLoop msgs tools order ps).2.2.length ≤ (order.map (lengthAt ps)).sum := by
  intro order
  induction order with
  | nil => intro ps; simp [chatLoop]
  | cons idx rest ih =>
    intro ps
    cases hip : ps[idx]? with
    | none =>
      have := ih ps
      simp only [chatLoop, hip, List.map_cons, List.sum_cons]
      omega
    | some entry =>
      have hat : lengthAt ps idx = entry.keys.keys.length := by
        rw [lengthAt, hip]; rfl
      have htr := tryProviderKeys_trace_le entry.provider msgs tools
        entry.keys.keys.length entry.keys
      cases hres :
          (tryProviderKeys entry.provider msgs tools entry.keys entry.keys.keys.length).1 with
      | some r =>
        simp only [chatLoop, hip, hres, List.map_cons, List.sum_cons]
        omega
      | none =>
        have hkeys := (tryProviderKeys_spec entry.provider msgs tools
          entry.keys.keys.length entry.keys).2.2
        have hmap : rest.map (lengthAt (ps.set idx { entry with
            keys := (tryProviderKeys entry.provider msgs tools entry.keys
              entry.keys.keys.length).2.1 })) = rest.map (lengthAt ps) := by
          apply List.map_congr_left
          intro j _
          exact lengthAt_set_eq ps idx entry _ hip (by rw [hkeys]) j
        have hrec := ih (ps.set idx { entry with
          keys := (tryProviderKeys entry.provider msgs tools entry.keys
            entry.keys.keys.length).2.1 })
        rw [hmap] at hrec
        simp only [chatLoop, hip, hres, List.map_cons, List.sum_cons, List.length_append]
        omega

theorem sum_range_lengthAt : ∀ ps : List ProviderEntry,
    ((List.range ps.length).map (lengthAt ps)).sum = keyCountSum ps := by
  intro ps
  induction ps with
  | nil => simp [keyCountSum]
  | cons e ps ih =>
    have h0 : lengthAt (e :: ps) 0 = e.keys.keys.length := by simp [lengthAt]
    have hs : ∀ i, lengthAt (e :: ps) (i + 1) = lengthAt ps i := by
      intro i; rw [lengthAt, lengthAt, List.getElem?_cons_succ]
    rw [List.length_cons, List.range_succ_eq_map, List.map_cons, List.map_map]
    have hmap : (List.range ps.length).map ((lengthAt (e :: ps)) ∘ Nat.succ) =
        (List.range ps.length).map (lengthAt ps) := by
      apply List.map_congr_left
      intro i _
      simp only [Function.comp_apply]
      exact hs i
    rw [hmap, List.sum_cons, h0, ih, keyCountSum, keyCountSum, List.map_cons, List.sum_cons]

theorem sum_filter_ne_aux (g : Nat → Nat) (d : Nat) : ∀ n : Nat,
    (((List.range n).filter (fun i => i ≠ d)).map g).sum + (if d < n then g d else 0) =
      ((List.range n).map g).sum := by
  intro n
  induction n with
  | zero => simp
  | succ n ih =>
    rw [List.range_succ, List.filter_append, List.map_append, List.sum_append,
      List.map_append, List.sum_append]
    have hfil : ∀ m k : Nat, List.filter (fun i => i ≠ k) [m] =
        if m = k then [] else [m] := by
      intro m k
      by_cases h : m = k <;> simp [h]
    rw [hfil]
    by_cases hd : n = d
    · rw [if_pos hd]
      rw [if_pos (show d < n + 1 by omega)]
      rw [if_neg (show ¬ d < n by omega)] at ih
      simp only [List.map_nil, List.sum_nil, List.map_cons, List.sum_cons]
      rw [show g n = g d by rw [hd]]
      omega
    · rw [if_neg hd]
      simp only [List.map_cons, List.map_nil, List.sum_cons, List.sum_nil]
      by_cases hlt : d < n
      · rw [if_pos (show d < n + 1 by omega)]
        rw [if_pos hlt] at ih
        omega
      · rw [if_neg (show ¬ d < n + 1 by omega)]
        rw [if_neg hlt] at ih
        omega

theorem provider_order_sum (pool : ProviderPool) :
    (pool.provider_order.map (lengthAt pool.providers)).sum =
      keyCountSum pool.providers := by
  rw [ProviderPool.provider_order, List.map_cons, List.sum_cons]
  have haux := sum_filter_ne_aux (lengthAt pool.providers) pool.default_idx
    pool.providers.length
  rw [sum_range_lengthAt] at haux
  by_cases hd : pool.default_idx < pool.providers.length
  · rw [if_pos hd] at haux
    omega
  · rw [if_neg hd] at haux
    have hz : lengthAt pool.providers pool.default_idx = 0 := by
      rw [lengthAt, List.getElem?_eq_none (by omega)]
      rfl
    omega

/-- Counterexample to claim C3 as stated: on a configured pool in which every
adapter invocation fails, `chat` ends with `RequestError "All providers
failed"` (capital A, as written in `pool.rs`), which is not the claimed
`RequestError "all providers failed"`. -/
theorem chat_all_fail_message_cex :
    poolAllFail.providers.isEmpty = false ∧
    (∀ a ∈ (poolAllFail.chat [] []).2.2, a.outcome.isOk = false) ∧
    (poolAllFail.chat [] []).1 ≠
      Except.error (ProviderError.RequestError "all providers failed") ∧
    (poolAllFail.chat [] []).1 =
      Except.error (ProviderError.RequestError "All providers failed") := by
  refine ⟨rfl, by decide, by decide, by decide⟩

/-- Claim C3 as amended: when at least one provider is configured and every
adapter invocation made by `chat` fails, `chat` returns the terminal error
`RequestError "All providers failed"` (the message is capitalized in the
code, unlike the claim's "all providers failed"), and the number of adapter
invocations made is at most the sum of keyCount over all configured
providers. -/
theorem chat_all_fail_terminal (pool : ProviderPool) (msgs : List Message)
    (tools : List ToolDef) (hne : pool.providers.isEmpty = false)
    (hfail : ∀ a ∈ (pool.chat msgs tools).2.2, a.outcome.isOk = false) :
    (pool.chat msgs tools).1 =
      Except.error (ProviderError.RequestError "All providers failed") ∧
    (pool.chat msgs tools).2.2.length ≤ keyCountSum pool.providers := by
  have htr : (pool.chat msgs tools).2.2 =
      (chatLoop msgs tools pool.provider_order pool.providers).2.2 := by
    simp [ProviderPool.chat, hne]
  constructor
  · have hf : ∀ a ∈ (chatLoop msgs tools pool.provider_order pool.providers).2.2,
        a.outcome.isOk = false := by
      rw [← htr]; exact hfail
    have h := chatLoop_all_fail msgs tools pool.provider_order pool.providers hf
    simpa [ProviderPool.chat, hne] using h
  · have h := chatLoop_trace_le msgs tools pool.provider_order pool.providers
    have h2 := provider_order_sum pool
    rw [htr]
    omega

/-- Witness for the amended C3 at a concrete two-provider pool whose adapters
always fail. -/
theorem chat_all_fail_terminal_witness :
    (poolAllFail.chat [] []).1 =
      Except.error (ProviderError.RequestError "All providers failed") ∧
    (poolAllFail.chat [] []).2.2.length ≤ keyCountSum poolAllFail.providers :=
  chat_all_fail_terminal poolAllFail [] [] rfl (by decide)

/-! ## Unrecognized default provider (claim C10) -/

theorem new_default_idx (cf gf qf mf : ChatFn) (ck gk qk mk : List String)
    (dp : String) :
    (ProviderPool.new cf gf qf mf ck gk qk mk dp).default_idx =
      ((ProviderPool.new cf gf qf mf ck gk qk mk dp).providers.findIdx?
        (fun p => p.provider.name = dp)).getD 0 := rfl

/-- Claim C10: when the configured default-provider name matches no
configured entry, construction still succeeds with default index 0, the first
configured backend (fixed order claude, gemini, groq, mistral, restricted to
non-empty key lists) is visited first by `chat`'s order, and no error is
reported. -/
theorem unknown_default_falls_back_to_first (cf gf qf mf : ChatFn)
    (ck gk qk mk : List String) (dp : String)
    (h : ∀ e ∈ (ProviderPool.new cf gf qf mf ck gk qk mk dp).providers,
      e.provider.name ≠ dp) :
    (ProviderPool.new cf gf qf mf ck gk qk mk dp).default_idx = 0 ∧
    (ProviderPool.new cf gf qf mf ck gk qk mk dp).provider_order.head? = some 0 ∧
    (ProviderPool.new cf gf qf mf ck gk qk mk dp).providers.map
        (fun e => e.provider.name) =
      (if ck = [] then [] else ["claude"]) ++ (if gk = [] then [] else ["gemini"]) ++
      (if qk = [] then [] else ["groq"]) ++ (if mk = [] then [] else ["mistral"]) := by
  have hnone : ((ProviderPool.new cf gf qf mf ck gk qk mk dp).providers.findIdx?
      (fun p => p.provider.name = dp)) = none := by
    rw [List.findIdx?_eq_none_iff]
    intro x hx
    simpa using h x hx
  have hidx : (ProviderPool.new cf gf qf mf ck gk qk mk dp).default_idx = 0 := by
    rw [new_default_idx, hnone]
    rfl
  refine ⟨hidx, ?_, ?_⟩
  · simp [ProviderPool.provider_order, hidx]
  · simp only [ProviderPool.new, List.map_append]
    split_ifs <;> simp [Provider.name]

/-- Witness for C10 at a concrete pool whose default name matches nothing. -/
theorem unknown_default_falls_back_witness :
    poolNoMatch.default_idx = 0 ∧
    poolNoMatch.provider_order.head? = some 0 ∧
    poolNoMatch.providers.map (fun e => e.provider.name) = ["claude", "gemini"] := by
  have h := unknown_default_falls_back_to_first (errFn ProviderError.RateLimited)
    (errFn ProviderError.RateLimited) (errFn ProviderError.RateLimited)
    (errFn ProviderError.RateLimited) ["ck"] ["gk"] [] [] "typo"
    (by
      intro e he
      have he2 : e = ProviderEntry.mk (Provider.Claude (errFn ProviderError.RateLimited))
            (KeyPool.new ["ck"]) ∨
          e = ProviderEntry.mk (Provider.Gemini (errFn ProviderError.RateLimited))
            (KeyPool.new ["gk"]) := by
        simpa [ProviderPool.new] using he
      rcases he2 with rfl | rfl <;> decide)
  refine ⟨h.1, h.2.1, ?_⟩
  have h3 := h.2.2
  rw [show (poolNoMatch : ProviderPool) =
    ProviderPool.new (errFn ProviderError.RateLimited) (errFn ProviderError.RateLimited)
      (errFn ProviderError.RateLimited) (errFn ProviderError.RateLimited)
      ["ck"] ["gk"] [] [] "typo" from rfl]
  rw [h3]
  decide

/-! ## Explicit-provider fast path (claim C8) -/

/-- Claim C8: when a provider with the requested name is configured, exactly
one key of that provider is drawn and tried first; a success is returned
immediately under the requested name with no other invocation; any failure of
that single attempt degrades to the full `chat` fallback (which visits the
default provider first, per C1), run on the pool whose only difference is the
advanced cursor of the named provider — the named provider is not retried
preferentially. -/
theorem chat_with_provider_fast_path (pool : ProviderPool) (msgs : List Message)
    (tools : List ToolDef) (pname : String) (i : Nat) (entry : ProviderEntry)
    (k : String) (kp1 : KeyPool)
    (hfind : pool.providers.findIdx? (fun p => p.provider.name = pname) = some i)
    (hentry : pool.providers[i]? = some entry)
    (hkey : entry.keys.next_key = (some k, kp1)) :
    (∀ r, entry.provider.chat msgs tools k = .ok r →
      pool.chat_with_provider msgs tools pname =
        (.ok (r, pname),
         ProviderPool.mk (pool.providers.set i (ProviderEntry.mk entry.provider kp1))
           pool.default_idx,
         [{ provider := entry.provider.name, key := k, outcome := .ok r }])) ∧
    (∀ e, entry.provider.chat msgs tools k = .error e →
      pool.chat_with_provider msgs tools pname =
        (((ProviderPool.mk (pool.providers.set i (ProviderEntry.mk entry.provider kp1))
            pool.default_idx).chat msgs tools).1,
         ((ProviderPool.mk (pool.providers.set i (ProviderEntry.mk entry.provider kp1))
            pool.default_idx).chat msgs tools).2.1,
         { provider := entry.provider.name, key := k, outcome := .error e } ::
           ((ProviderPool.mk (pool.providers.set i (ProviderEntry.mk entry.provider kp1))
             pool.default_idx).chat msgs tools).2.2)) := by
  constructor
  · intro r hr
    simp only [ProviderPool.chat_with_provider, hfind, hentry, hkey, hr]
  · intro e hr
    simp only [ProviderPool.chat_with_provider, hfind, hentry, hkey, hr]

/-- Witness for C8: the claude attempt of `poolTwo` fails with `AuthError`,
so the call degrades to the pool fallback, which answers from the default
provider gemini; the trace shows claude tried once, then gemini. -/
theorem chat_with_provider_fast_path_witness :
    (poolTwo.chat_with_provider [] [] "claude").1 = Except.ok (respHello, "gemini") ∧
    (poolTwo.chat_with_provider [] [] "claude").2.2.map (fun a => a.provider) =
      ["claude", "gemini"] := by
  have h := chat_with_provider_fast_path poolTwo [] [] "claude" 0
    (ProviderEntry.mk (Provider.Claude (errFn (ProviderError.AuthError "x")))
      (KeyPool.new ["ck"]))
    "ck" (KeyPool.mk ["ck"] 1) rfl rfl rfl
  have h2 := h.2 (ProviderError.AuthError "x") rfl
  refine ⟨?_, ?_⟩ <;> rw [h2] <;> decide

/-! ## Termination without tool calls and tool-usage accounting (claim C4) -/

theorem insertCount_mem : ∀ (m : List (String × Nat)) (t : String) (x : String × Nat),
    x ∈ insertCount m t → x.1 = t ∨ x ∈ m := by
  intro m
  induction m with
  | nil =>
    intro t x hx
    simp [insertCount] at hx
    exact Or.inl (by rw [hx])
  | cons kc rest ih =>
    intro t x hx
    obtain ⟨k, c⟩ := kc
    by_cases h1 : t < k
    · simp only [insertCount, if_pos h1, List.mem_cons] at hx
      rcases hx with h | h | h
      · exact Or.inl (by rw [h])
      · exact Or.inr (by rw [h]; exact List.mem_cons_self _ _)
      · exact Or.inr (List.mem_cons_of_mem _ h)
    · by_cases h2 : t = k
      · simp only [insertCount, if_neg h1, if_pos h2, List.mem_cons] at hx
        rcases hx with h | h
        · refine Or.inl ?_
          rw [h]
          exact h2.symm
        · exact Or.inr (List.mem_cons_of_mem _ h)
      · simp only [insertCount, if_neg h1, if_neg h2, List.mem_cons] at hx
        rcases hx with h | h
        · exact Or.inr (by rw [h]; exact List.mem_cons_self _ _)
        · rcases ih t x h with h3 | h3
          · exact Or.inl h3
          · exact Or.inr (List.mem_cons_of_mem _ h3)

theorem insertCount_pairwise : ∀ (m : List (String × Nat)) (t : String),
    m.Pairwise (fun a b => a.1 < b.1) →
    (insertCount m t).Pairwise (fun a b => a.1 < b.1) := by
  intro m
  induction m with
  | nil => intro t _; simp [insertCount]
  | cons kc rest ih =>
    intro t hp
    obtain ⟨k, c⟩ := kc
    rw [List.pairwise_cons] at hp
    obtain ⟨hkrest, hrest⟩ := hp
    by_cases h1 : t < k
    · have he : insertCount ((k, c) :: rest) t = (t, 1) :: (k, c) :: rest := by
        simp [insertCount, h1]
      rw [he]
      refine List.pairwise_cons.mpr ⟨?_, List.pairwise_cons.mpr ⟨hkrest, hrest⟩⟩
      intro b hb
      rcases List.mem_cons.mp hb with h | h
      · rw [h]; exact h1
      · exact lt_trans h1 (hkrest b h)
    · by_cases h2 : t = k
      · have he : insertCount ((k, c) :: rest) t = (k, c + 1) :: rest := by
          simp [insertCount, h1, h2]
        rw [he]
        exact List.pairwise_cons.mpr ⟨hkrest, hrest⟩
      · have he : insertCount ((k, c) :: rest) t = (k, c) :: insertCount rest t := by
          simp [insertCount, h1, h2]
        rw [he]
        refine List.pairwise_cons.mpr ⟨?_, ih t hrest⟩
        intro b hb
        rcases insertCount_mem rest t b hb with h3 | h3
        · rw [h3]
          exact lt_of_le_of_ne (not_lt.mp h1) (fun he2 => h2 he2.symm)
        · exact hkrest b h3

theorem lookup_gt_none : ∀ (m : List (String × Nat)) (t : String),
    (∀ x ∈ m, t < x.1) → m.lookup t = none := by
  intro m
  induction m with
  | nil => intro t _; simp
  | cons kc rest ih =>
    intro t h
    obtain ⟨k, c⟩ := kc
    have hk : t < k := h (k, c) (List.mem_cons_self _ _)
    have hne : (t == k) = false := beq_eq_false_iff_ne.mpr (ne_of_lt hk)
    rw [List.lookup_cons, hne]
    exact ih t (fun x hx => h x (List.mem_cons_of_mem _ hx))

theorem lookup_insertCount : ∀ (m : List (String × Nat)) (t s : String),
    m.Pairwise (fun a b => a.1 < b.1) →
    (insertCount m t).lookup s =
      if s = t then some ((m.lookup s).getD 0 + 1) else m.lookup s := by
  intro m
  induction m with
  | nil =>
    intro t s _
    by_cases h : s = t
    · simp [insertCount, List.lookup_cons, h]
    · have hne : (s == t) = false := beq_eq_false_iff_ne.mpr h
      simp [insertCount, List.lookup_cons, hne, h]
  | cons kc rest ih =>
    intro t s hp
    obtain ⟨k, c⟩ := kc
    have hp2 := List.pairwise_cons.mp hp
    obtain ⟨hkrest, hrest⟩ := hp2
    by_cases h1 : t < k
    · have he : insertCount ((k, c) :: rest) t = (t, 1) :: (k, c) :: rest := by
        simp [insertCount, h1]
      rw [he]
      by_cases h2 : s = t
      · subst h2
        have hnone : ((k, c) :: rest).lookup s = none := by
          apply lookup_gt_none
          intro x hx
          rcases List.mem_cons.mp hx with h | h
          · rw [h]; exact h1
          · exact lt_trans h1 (hkrest x h)
        simp [List.lookup_cons, hnone]
      · have hne : (s == t) = false := beq_eq_false_iff_ne.mpr h2
        simp [List.lookup_cons, hne, h2]
    · by_cases h2 : t = k
      · have he : insertCount ((k, c) :: rest) t = (k, c + 1) :: rest := by
          simp [insertCount, h1, h2]
        rw [he]
        subst h2
        by_cases h3 : s = t
        · subst h3
          simp [List.lookup_cons]
        · have hne : (s == t) = false := beq_eq_false_iff_ne.mpr h3
          simp [List.lookup_cons, hne, h3]
      · have he : insertCount ((k, c) :: rest) t = (k, c) :: insertCount rest t := by
          simp [insertCount, h1, h2]
        rw [he]
        by_cases h3 : s = k
        · subst h3
          have hst : s ≠ t := fun hst => h2 (hst.symm)
          simp [List.lookup_cons, hst]
        · have hne : (s == k) = false := beq_eq_false_iff_ne.mpr h3
          rw [List.lookup_cons, hne, List.lookup_cons, hne]
          exact ih t s hrest

theorem foldl_insertCount_pairwise (l : List String) : ∀ m,
    m.Pairwise (fun a b : String × Nat => a.1 < b.1) →
    (l.foldl insertCount m).Pairwise (fun a b => a.1 < b.1) := by
  induction l with
  | nil => intro m hm; exact hm
  | cons t l ih => intro m hm; exact ih _ (insertCount_pairwise m t hm)

theorem lookup_foldl_insertCount (l : List String) : ∀ (m : List (String × Nat)) (s : String),
    m.Pairwise (fun a b => a.1 < b.1) →
    (l.foldl insertCount m).lookup s =
      if l.count s = 0 then m.lookup s
      else some ((m.lookup s).getD 0 + l.count s) := by
  induction l with
  | nil => intro m s _; simp
  | cons t l ih =>
    intro m s hp
    have hfold : (t :: l).foldl insertCount m = l.foldl insertCount (insertCount m t) := rfl
    rw [hfold, ih (insertCount m t) s (insertCount_pairwise m t hp),
      lookup_insertCount m t s hp, List.count_cons]
    by_cases h : s = t
    · subst h
      by_cases h0 : l.count s = 0
      · simp [h0]
      · simp only [beq_self_eq_true, if_true, if_neg h0, if_pos rfl]
        rw [if_neg (show ¬ (l.count s + 1 = 0) by omega)]
        simp only [Option.getD_some, Option.some.injEq]
        omega
    · have hne : (t == s) = false := beq_eq_false_iff_ne.mpr (fun he => h he.symm)
      simp [hne, h]

theorem mem_keys_iff_lookup : ∀ (m : List (String × Nat)) (s : String),
    s ∈ m.map Prod.fst ↔ ∃ c, m.lookup s = some c := by
  intro m
  induction m with
  | nil => intro s; simp
  | cons kc rest ih =>
    intro s
    obtain ⟨k, c⟩ := kc
    by_cases h : s = k
    · subst h
      simp [List.lookup_cons]
    · have hne : (s == k) = false := beq_eq_false_iff_ne.mpr h
      simp [List.lookup_cons, hne, h, ih s]

theorem lookup_get_self : ∀ (m : List (String × Nat)),
    m.Pairwise (fun a b => a.1 < b.1) →
    ∀ (j : Nat) (hj : j < m.length), m.lookup (m[j].1) = some (m[j].2) := by
  intro m
  induction m with
  | nil => intro _ j hj; exact absurd hj (by simp)
  | cons kc rest ih =>
    intro hp j hj
    obtain ⟨k, c⟩ := kc
    have hp2 := List.pairwise_cons.mp hp
    cases j with
    | zero => simp [List.lookup_cons]
    | succ j =>
      have hjr : j < rest.length := by simpa using hj
      have hx : ((k, c) :: rest)[j + 1] = rest[j] := by simp
      rw [hx]
      have hmem : rest[j] ∈ rest := List.getElem_mem hjr
      have hgt : k < (rest[j]).1 := hp2.1 _ hmem
      have hne : ((rest[j]).1 == k) = false := beq_eq_false_iff_ne.mpr (ne_of_gt hgt)
      rw [List.lookup_cons, hne]
      exact ih hp2.2 j hjr

theorem dedup_with_counts_spec (lu : List String) :
    List.Pairwise (fun a b : String => a < b) (dedup_with_counts lu).1 ∧
    (∀ s, s ∈ (dedup_with_counts lu).1 ↔ s ∈ lu) ∧
    (dedup_with_counts lu).2.length = (dedup_with_counts lu).1.length ∧
    (∀ (j : Nat), j < (dedup_with_counts lu).1.length →
      j < (dedup_with_counts lu).2.length →
      (dedup_with_counts lu).2[j]?.getD 0 =
        lu.count ((dedup_with_counts lu).1[j]?.getD "")) := by
  have hpm : (lu.foldl insertCount []).Pairwise (fun a b : String × Nat => a.1 < b.1) :=
    foldl_insertCount_pairwise lu [] (by simp)
  have hlk : ∀ s, (lu.foldl insertCount []).lookup s =
      if lu.count s = 0 then none else some (lu.count s) := by
    intro s
    have h := lookup_foldl_insertCount lu [] s (by simp)
    simpa using h
  have hno : (dedup_with_counts lu).1 = (lu.foldl insertCount []).map Prod.fst := rfl
  have hco : (dedup_with_counts lu).2 = (lu.foldl insertCount []).map Prod.snd := rfl
  refine ⟨?_, ?_, ?_, ?_⟩
  · rw [hno]
    exact List.pairwise_map.mpr hpm
  · intro s
    rw [hno, mem_keys_iff_lookup]
    constructor
    · rintro ⟨c, hc⟩
      rw [hlk s] at hc
      by_cases h0 : lu.count s = 0
      · rw [if_pos h0] at hc
        exact absurd hc (by simp)
      · exact List.count_pos_iff.mp (Nat.pos_of_ne_zero h0)
    · intro hs
      have hpos : 0 < lu.count s := List.count_pos_iff.mpr hs
      exact ⟨lu.count s, by rw [hlk s, if_neg (by omega)]⟩
  · rw [hno, hco]
    simp
  · intro j h1 h2
    have hj : j < (lu.foldl insertCount []).length := by
      rw [hno] at h1
      simpa using h1
    have e1 : (dedup_with_counts lu).1[j]?.getD "" = ((lu.foldl insertCount [])[j]).1 := by
      rw [hno]
      rw [List.getElem?_eq_getElem (by simpa using hj)]
      simp
    have e2 : (dedup_with_counts lu).2[j]?.getD 0 = ((lu.foldl insertCount [])[j]).2 := by
      rw [hco]
      rw [List.getElem?_eq_getElem (by simpa using hj)]
      simp
    rw [e1, e2]
    have hlg := lookup_get_self (lu.foldl insertCount []) hpm j hj
    rw [hlk ((lu.foldl insertCount [])[j]).1] at hlg
    by_cases h0 : lu.count ((lu.foldl insertCount [])[j]).1 = 0
    · rw [if_pos h0] at hlg
      exact absurd hlg (by simp)
    · rw [if_neg h0] at hlg
      exact (Option.some.injEq _ _ ▸ hlg).symm

/-- Claim C4: when the model's response at turn `t` carries no tool calls,
the loop terminates at that turn with the response text, the provider that
answered, `t+1` turns taken, exactly one model call at this turn, an
unchanged transcript, and tool usage reported as the deduplicated names used
so far in strictly sorted (hence deterministic, duplicate-free) order with
the exact occurrence count per name; at turn 0 with no tools used the usage
set is empty. -/
theorem run_ends_on_no_tool_calls (cfg : LoopConfig) (pool : ProviderPool)
    (msgs : List Message) (lu : List String) (lp : String) (t : Nat)
    (resp : LlmResponse) (pname : String) (pool1 : ProviderPool) (tr : List Attempt)
    (ht : t < cfg.maxTurns) (hc : cfg.cancel t = false)
    (hchat : chatStep cfg pool msgs = (.ok (resp, pname), pool1, tr))
    (hnt : resp.tool_calls = []) :
    AgentLoop.go cfg pool msgs lu lp t =
      RunOutput.mk
        (Except.ok (AgentResult.mk (resp.content.getD "") (dedup_with_counts lu).1
          (dedup_with_counts lu).2 pname (t + 1)))
        msgs pool1 1 ∧
    List.Pairwise (fun a b : String => a < b) (dedup_with_counts lu).1 ∧
    (∀ s, s ∈ (dedup_with_counts lu).1 ↔ s ∈ lu) ∧
    (dedup_with_counts lu).2.length = (dedup_with_counts lu).1.length ∧
    (∀ (j : Nat), j < (dedup_with_counts lu).1.length →
      j < (dedup_with_counts lu).2.length →
      (dedup_with_counts lu).2[j]?.getD 0 =
        lu.count ((dedup_with_counts lu).1[j]?.getD "")) := by
  obtain ⟨d1, d2, d3, d4⟩ := dedup_with_counts_spec lu
  refine ⟨?_, d1, d2, d3, d4⟩
  unfold AgentLoop.go
  rw [if_pos ht]
  rw [if_neg (show ¬ (cfg.cancel t = true) by simp [hc])]
  rw [hchat]
  have hempty : resp.tool_calls.isEmpty = true := by simp [hnt]
  simp [hempty]

/-- Witness for C4: a first response without tool calls ends the run after
exactly one turn with an empty tool-usage set. -/
theorem run_ends_on_no_tool_calls_witness :
    AgentLoop.run cfgBase poolHello "sys" (MessageContent.Text "hi") [] =
      RunOutput.mk (Except.ok (AgentResult.mk "hello" [] [] "claude" 1))
        msgsW ((chatStep cfgBase poolHello msgsW).2.1) 1 := by
  have h := run_ends_on_no_tool_calls cfgBase poolHello msgsW [] "" 0 respHello "claude"
    (chatStep cfgBase poolHello msgsW).2.1 (chatStep cfgBase poolHello msgsW).2.2
    (by decide) rfl rfl rfl
  exact h.1

/-! ## Transcript shape (claim C5), cancellation (C6), max turns (C7),
terminal pool error (C9) -/

theorem go_transcript_blocks_aux : ∀ (fuel : Nat) (cfg : LoopConfig)
    (pool : ProviderPool) (msgs : List Message) (lu : List String) (lp : String)
    (t : Nat), cfg.maxTurns - t ≤ fuel →
    ∃ tail, (AgentLoop.go cfg pool msgs lu lp t).transcript = msgs ++ tail ∧
      ToolBlocks cfg.execute tail := by
  intro fuel
  induction fuel with
  | zero =>
    intro cfg pool msgs lu lp t hf
    have ht : ¬ t < cfg.maxTurns := by omega
    refine ⟨[], ?_, ToolBlocks.nil⟩
    unfold AgentLoop.go
    rw [if_neg ht]
    simp
  | succ fuel ih =>
    intro cfg pool msgs lu lp t hf
    by_cases ht : t < cfg.maxTurns
    · by_cases hc : cfg.cancel t = true
      · refine ⟨[], ?_, ToolBlocks.nil⟩
        unfold AgentLoop.go
        rw [if_pos ht, if_pos hc]
        simp
      · rcases hcs : chatStep cfg pool msgs with ⟨res, pool1, tr⟩
        cases res with
        | error e =>
          refine ⟨[], ?_, ToolBlocks.nil⟩
          unfold AgentLoop.go
          rw [if_pos ht, if_neg hc, hcs]
          simp
        | ok val =>
          obtain ⟨resp, pname⟩ := val
          by_cases hempty : resp.tool_calls.isEmpty = true
          · refine ⟨[], ?_, ToolBlocks.nil⟩
            unfold AgentLoop.go
            rw [if_pos ht, if_neg hc, hcs]
            simp [hempty]
          · obtain ⟨tail2, htail2, hblocks⟩ := ih cfg pool1
              (msgs ++ assistantToolCallMsg resp ::
                toolResults cfg.execute resp.tool_calls)
              (lu ++ resp.tool_calls.map (fun tc => tc.function.name)) pname (t + 1)
              (by omega)
            refine ⟨assistantToolCallMsg resp ::
              (toolResults cfg.execute resp.tool_calls ++ tail2), ?_,
              ToolBlocks.block resp tail2 hblocks⟩
            unfold AgentLoop.go
            rw [if_pos ht, if_neg hc, hcs]
            have hne : resp.tool_calls.isEmpty = false := by
              cases hi : resp.tool_calls.isEmpty
              · rfl
              · exact absurd hi hempty
            simp only [hne, Bool.false_eq_true, if_false]
            rw [htail2]
            simp
    · refine ⟨[], ?_, ToolBlocks.nil⟩
      unfold AgentLoop.go
      rw [if_neg ht]
      simp

/-- Claim C5: from any loop state, everything the loop appends to the
transcript is a sequence of completed turn blocks: each assistant message
carrying tool calls is followed, before anything else (in particular before
the next model call), by exactly one `ToolResult` per tool call, carrying
that call's id and name, in exactly the order the calls were issued; the
prefix already present is never modified (append-only). -/
theorem transcript_append_only_blocks (cfg : LoopConfig) (pool : ProviderPool)
    (msgs : List Message) (lu : List String) (lp : String) (t : Nat) :
    ∃ tail, (AgentLoop.go cfg pool msgs lu lp t).transcript = msgs ++ tail ∧
      ToolBlocks cfg.execute tail :=
  go_transcript_blocks_aux (cfg.maxTurns - t) cfg pool msgs lu lp t (le_refl _)

/-- Claim C6: when the cancellation flag is observed set at the boundary of
turn `t` (with budget remaining), the run terminates immediately with a
successful result: its text is the most recent assistant text found by
scanning the transcript backward with the cancellation notice appended, or
the default notice when none (or only empty text) exists; no turn-`t` model
call is issued (zero model calls, pool and transcript unchanged), so
cancellation is never observed between a model call and its tool executions. -/
theorem cancel_at_turn_boundary (cfg : LoopConfig) (pool : ProviderPool)
    (msgs : List Message) (lu : List String) (lp : String) (t : Nat)
    (ht : t < cfg.maxTurns) (hc : cfg.cancel t = true) :
    AgentLoop.go cfg pool msgs lu lp t =
      RunOutput.mk
        (Except.ok (AgentResult.mk
          (if (lastAssistantText? msgs).getD "" = "" then "Query đã bị dừng."
           else (lastAssistantText? msgs).getD "" ++ "\n\n_— Query đã bị dừng._")
          (dedup_with_counts lu).1 (dedup_with_counts lu).2 lp t))
        msgs pool 0 := by
  unfold AgentLoop.go
  rw [if_pos ht, if_pos hc]

/-- Witness for C6: a run cancelled at the very first boundary returns the
default cancellation notice, zero turns, and makes no model call. -/
theorem cancel_at_turn_boundary_witness :
    AgentLoop.run cfgCancelNow poolHello "sys" (MessageContent.Text "hi") [] =
      RunOutput.mk (Except.ok (AgentResult.mk "Query đã bị dừng." [] [] "" 0))
        msgsW poolHello 0 := by
  have h := cancel_at_turn_boundary cfgCancelNow poolHello msgsW [] "" 0
    (by decide) rfl
  exact h

/-- Claim C7: when the turn budget is exhausted without a tool-call-free
response, the loop returns a successful (non-error) result whose turns count
is `maxTurns` and whose text is the most recent assistant message's text
found in the transcript, or the fixed limit-reached message when no
assistant message exists; no further model call is made. -/
theorem max_turns_result (cfg : LoopConfig) (pool : ProviderPool)
    (msgs : List Message) (lu : List String) (lp : String) (t : Nat)
    (ht : ¬ t < cfg.maxTurns) :
    AgentLoop.go cfg pool msgs lu lp t =
      RunOutput.mk
        (Except.ok (AgentResult.mk
          ((lastAssistantText? msgs).getD
            "Reached max processing limit. Please try again.")
          (dedup_with_counts lu).1 (dedup_with_counts lu).2 lp cfg.maxTurns))
        msgs pool 0 := by
  unfold AgentLoop.go
  rw [if_neg ht]

/-- Witness for C7 at the state reached after three turns of a three-turn
budget with no assistant text in the transcript. -/
theorem max_turns_result_witness :
    AgentLoop.go cfgBase poolHello msgsW [] "claude" 3 =
      RunOutput.mk (Except.ok (AgentResult.mk
        "Reached max processing limit. Please try again." [] [] "claude" 3))
        msgsW poolHello 0 :=
  max_turns_result cfgBase poolHello msgsW [] "claude" 3 (by decide)

/-- Claim C9: when the model call of turn `t` returns a terminal provider
error, the run fails immediately at that turn: the single error string built
from the pool's error (the "LLM error: " rendering of the terminal error) is
returned unchanged as the loop's result, no further turn runs, and no
partial `AgentResult` or transcript accompanies the error (the result is the
bare error string). -/
theorem pool_error_propagates (cfg : LoopConfig) (pool : ProviderPool)
    (msgs : List Message) (lu : List String) (lp : String) (t : Nat)
    (e : ProviderError) (pool1 : ProviderPool) (tr : List Attempt)
    (ht : t < cfg.maxTurns) (hc : cfg.cancel t = false)
    (hchat : chatStep cfg pool msgs = (.error e, pool1, tr)) :
    AgentLoop.go cfg pool msgs lu lp t =
      RunOutput.mk (Except.error ("LLM error: " ++ e.display)) msgs pool1 1 := by
  unfold AgentLoop.go
  rw [if_pos ht, if_neg (show ¬ (cfg.cancel t = true) by simp [hc]), hchat]

/-- Witness for C9: with no configured provider the pool returns `NoKeys`
and the run fails at once with the corresponding error string. -/
theorem pool_error_propagates_witness :
    AgentLoop.run cfgBase poolEmpty "sys" (MessageContent.Text "hi") [] =
      RunOutput.mk (Except.error ("LLM error: " ++ ProviderError.NoKeys.display))
        msgsW poolEmpty 1 := by
  have h := pool_error_propagates cfgBase poolEmpty msgsW [] "" 0
    ProviderError.NoKeys poolEmpty [] (by decide) rfl rfl
  exact h
